import Mathlib

/- Verification of the Document Search and Navigation State Engine of the
markdown documentation viewer (src/docs.js and src/body.js). Definitions
are shallow embeddings of the JavaScript: strings are modelled through
their character lists, ASCII case folding stands in for toLowerCase, and
DOM side effects are modelled as explicit state values. -/

namespace MarkdownDocs

/-! ### String primitives modelling the JavaScript string operations -/

/-- Model of the JavaScript toLowerCase (ASCII case folding). -/
def jsToLower (s : String) : String := ⟨s.data.map Char.toLower⟩

/-- Does the second character list start with the first one. -/
def headMatch : List Char → List Char → Bool
  | [], _ => true
  | _ :: _, [] => false
  | a :: as, b :: bs => a == b && headMatch as bs

/-- Substring occurrence test on character lists. -/
def subMatch (needle : List Char) : List Char → Bool
  | [] => headMatch needle []
  | c :: cs => headMatch needle (c :: cs) || subMatch needle cs

/-- Model of the JavaScript includes test for substrings. -/
def jsIncludes (hay needle : String) : Bool := subMatch needle.data hay.data

/-- Split a character list at every character satisfying p, keeping empty
pieces, as the JavaScript split with a single-character separator does. -/
def splitCharList (p : Char → Bool) : List Char → List (List Char)
  | [] => [[]]
  | c :: cs =>
    if p c then [] :: splitCharList p cs
    else
      match splitCharList p cs with
      | [] => [[c]]
      | l :: ls => (c :: l) :: ls

/-- Model of content.split on a newline character. -/
def splitLines (s : String) : List String :=
  (splitCharList (fun c => c == '\n') s.data).map fun l => ⟨l⟩

/-- Model of the JavaScript trim. -/
def jsTrim (s : String) : String :=
  ⟨((s.data.dropWhile Char.isWhitespace).reverse.dropWhile Char.isWhitespace).reverse⟩

/-- Tokens of a query: the JavaScript split on whitespace runs followed by
discarding empty tokens. Splitting at every whitespace character and then
dropping empty pieces yields exactly the maximal non-whitespace runs. -/
def queryWords (query : String) : List String :=
  ((splitCharList Char.isWhitespace query.data).map fun l => (⟨l⟩ : String)).filter
    fun w => w != ""

/-! ### Document store data model -/

/-- A manifest entry after loading: name, path, optional doc-section label,
fetched content, and the derived slug. -/
structure DocFile where
  name : String
  path : String
  docSection : Option String
  content : String
  slug : String
deriving DecidableEq

/-- A matched content line of a search result: the trimmed line text paired
with the original line index. -/
structure MatchedLine where
  line : String
  index : Nat
deriving DecidableEq

/-- A search result as built by performSearch in both source files. -/
structure SearchResult where
  title : String
  slug : String
  matchedLines : List MatchedLine
  titleMatch : Bool
deriving DecidableEq

/-! ### The search scan of src/docs.js (performSearch, lines 778 to 811),
written in the accumulator style of the forEach plus push loops. -/

/-- The inner line loop of performSearch in src/docs.js: forEach over the
lines of the content with their indices, pushing the trimmed line and its
index whenever every query word is a substring of the lowercased line. -/
def docsMatchedLines (ws : List String) (content : String) : List MatchedLine :=
  (splitLines content).enum.foldl
    (fun acc p =>
      if ws.all fun w => jsIncludes (jsToLower p.2) w then acc ++ [⟨jsTrim p.2, p.1⟩]
      else acc)
    []

/-- The file loop of performSearch in src/docs.js: forEach over the files,
pushing a result when the lowercased title contains the query or some
content line matched. -/
def docsPerformScan (query : String) (files : List DocFile) : List SearchResult :=
  files.foldl
    (fun results file =>
      let titleMatch := jsIncludes (jsToLower file.name) query
      let matchedLines := docsMatchedLines (queryWords query) file.content
      if titleMatch || !matchedLines.isEmpty then
        results ++ [⟨file.name, file.slug, matchedLines, titleMatch⟩]
      else results)
    []

/-! ### The search scan of src/body.js (performSearch, lines 126 to 154),
written as a filterMap over the files. -/

/-- The inner line loop of performSearch in src/body.js, indexed from i. -/
def bodyMatchedLines (ws : List String) (i : Nat) : List String → List MatchedLine
  | [] => []
  | L :: Ls =>
    if ws.all fun w => jsIncludes (jsToLower L) w then
      ⟨jsTrim L, i⟩ :: bodyMatchedLines ws (i + 1) Ls
    else bodyMatchedLines ws (i + 1) Ls

/-- The file loop of performSearch in src/body.js. -/
def bodyPerformScan (query : String) (files : List DocFile) : List SearchResult :=
  let ws := queryWords query
  files.filterMap fun file =>
    let titleMatch := jsIncludes (jsToLower file.name) query
    let matchedLines := bodyMatchedLines ws 0 (splitLines file.content)
    if titleMatch || !matchedLines.isEmpty then
      some ⟨file.name, file.slug, matchedLines, titleMatch⟩
    else none

/-- Whether a document produces a search result (the inclusion condition of
the push in performSearch). -/
def docMatches (query : String) (file : DocFile) : Bool :=
  jsIncludes (jsToLower file.name) query
    || !(bodyMatchedLines (queryWords query) 0 (splitLines file.content)).isEmpty

/-- The search result built for a matching document. -/
def mkResult (query : String) (file : DocFile) : SearchResult :=
  ⟨file.name, file.slug, bodyMatchedLines (queryWords query) 0 (splitLines file.content),
    jsIncludes (jsToLower file.name) query⟩

/-! ### The rendered outcome of performSearch in src/docs.js -/

/-- The three visually distinct container states produced by performSearch
and displaySearchResults in src/docs.js: the too-short hint, the
no-results marker, and a populated result list. -/
inductive SearchOutcome where
  | tooShort : SearchOutcome
  | noResults : SearchOutcome
  | results : List SearchResult → SearchOutcome
deriving DecidableEq

/-- performSearch in src/docs.js: a query shorter than 2 characters renders
the hint and returns before scanning; otherwise the scan runs and
displaySearchResults renders either the populated list or the no-results
marker. -/
def performSearchOutcome (query : String) (files : List DocFile) : SearchOutcome :=
  if query.length < 2 then .tooShort
  else
    match docsPerformScan query files with
    | [] => .noResults
    | r :: rs => .results (r :: rs)

/-- The markup rendered for the too-short hint in src/docs.js. -/
def searchHintHTML : String :=
  "<div class=\"search-hint\">Type at least 2 characters to search...</div>"

/-- The markup rendered for an empty result set in displaySearchResults,
for a given result class. -/
def noResultsHTML (resultClass : String) : String :=
  "<div class=\"" ++ resultClass ++ "-snippet\">No results found</div>"

/-- The container states of performSearch in src/body.js: the too-short
early return leaves the container cleared (no hint markup there),
otherwise the scan fills it with the populated list or the no-results
marker. -/
inductive BodySearchOutcome where
  | cleared : BodySearchOutcome
  | noResults : BodySearchOutcome
  | results : List SearchResult → BodySearchOutcome
deriving DecidableEq

/-- performSearch in src/body.js, as the resulting container state. -/
def bodyPerformSearchOutcome (query : String) (files : List DocFile) : BodySearchOutcome :=
  if query.length < 2 then .cleared
  else
    match bodyPerformScan query files with
    | [] => .noResults
    | r :: rs => .results (r :: rs)

/-! ### Slug derivation (loadDocumentationFiles, src/docs.js lines 236 to
239) and slug lookup (loadMarkdown, lines 386 to 390) -/

/-- One pass over the characters modelling replace of every whitespace run
by a single hyphen: a whitespace character opening a run emits a hyphen,
later characters of the same run emit nothing. The flag records whether
the previous character was whitespace. -/
def collapseWsAux (prevWs : Bool) : List Char → List Char
  | [] => []
  | c :: cs =>
    if c.isWhitespace then
      if prevWs then collapseWsAux true cs else '-' :: collapseWsAux true cs
    else c :: collapseWsAux false cs

/-- The slug of a file name: the lowercased name with every whitespace run
collapsed to a single hyphen. -/
def slugify (name : String) : String :=
  ⟨collapseWsAux false (name.data.map Char.toLower)⟩

/-- loadDocumentationFiles attaches the derived slug to every file. -/
def loadStore (files : List DocFile) : List DocFile :=
  files.map fun f => { f with slug := slugify f.name }

/-- The slug lookup used by loadMarkdown: the first file whose slug equals
the requested one. -/
def findBySlug (files : List DocFile) (slug : String) : Option DocFile :=
  files.find? fun f => f.slug == slug

/-- Splitting a character list on maximal whitespace runs, as the
JavaScript split on a whitespace-run pattern does: used to state what
slugify computes. The flag records whether the previous character was
whitespace. -/
def wsSplitAux (prevWs : Bool) : List Char → List (List Char)
  | [] => [[]]
  | c :: cs =>
    if c.isWhitespace then
      if prevWs then wsSplitAux true cs else [] :: wsSplitAux true cs
    else
      match wsSplitAux false cs with
      | [] => [[c]]
      | p :: ps => (c :: p) :: ps

/-- Joining pieces with single hyphens, as the replacement side of the
whitespace-run substitution. -/
def joinHyphen : List (List Char) → List Char
  | [] => []
  | [p] => p
  | p :: ps => p ++ '-' :: joinHyphen ps

/-! ### Initial slug resolution and markdown loading (setupApplication,
src/docs.js lines 266 to 272; setupEventListeners lines 730 to 734;
loadMarkdown lines 386 to 421) -/

/-- Outcome of loadMarkdown: either the named document is rendered, or the
content pane shows the failure message. -/
inductive LoadOutcome where
  | rendered : String → LoadOutcome
  | failed : LoadOutcome
deriving DecidableEq

/-- loadMarkdown: look the slug up in the store; render the file when it is
found (content is always present after the bulk load), otherwise show the
failure message and leave the state at the unresolved slug. -/
def loadMarkdown (files : List DocFile) (slug : String) : LoadOutcome :=
  match findBySlug files slug with
  | some f => .rendered f.slug
  | none => .failed

/-- The slug chosen on startup and on every hash change: the URL fragment
when it is non-empty (JavaScript truthiness of the substring), otherwise
the slug of the first file, otherwise the empty string. -/
def initialSlug (fragment : String) (files : List DocFile) : String :=
  if fragment != "" then fragment
  else
    match files with
    | [] => ""
    | f :: _ => f.slug

/-! ### Pagination (updatePagination, src/docs.js lines 447 to 461, and the
click plus arrow-key handlers) -/

/-- The index of the active slug in the store: findIndex semantics, hence
minus one when the slug is absent. -/
def findSlugIdx (files : List DocFile) (slug : String) : Int :=
  match files.findIdx? (fun f => f.slug == slug) with
  | some n => (n : Int)
  | none => -1

/-- A placeholder file for the (never reached) out-of-range index access. -/
def dummyFile : DocFile := ⟨"", "", none, "", ""⟩

/-- The state of the two pagination buttons after updatePagination. -/
structure PaginationView where
  prevDisabled : Bool
  nextDisabled : Bool
  prevTarget : String
  nextTarget : String
deriving DecidableEq

/-- updatePagination: an early return leaves the buttons untouched when the
store is empty; otherwise the disabled flags and data targets are set from
the findIndex result. -/
def updatePagination (files : List DocFile) (currentSlug : String) : Option PaginationView :=
  if files.isEmpty then none
  else
    let idx := findSlugIdx files currentSlug
    some
      { prevDisabled := decide (idx ≤ 0)
        nextDisabled := decide (idx = -1) || decide ((files.length : Int) - 1 ≤ idx)
        prevTarget := if 0 < idx then (files.getD (idx - 1).toNat dummyFile).slug else ""
        nextTarget :=
          if idx < (files.length : Int) - 1 then (files.getD (idx + 1).toNat dummyFile).slug
          else "" }

/-- Pressing the previous button: a disabled button receives no click, and
the click handler only assigns the hash when the stored target is
non-empty. Returns the (possibly unchanged) hash. -/
def pressPrev (pv : PaginationView) (hash : String) : String :=
  if pv.prevDisabled then hash
  else if pv.prevTarget != "" then "#" ++ pv.prevTarget else hash

/-- Pressing the next button, under the same rules. -/
def pressNext (pv : PaginationView) (hash : String) : String :=
  if pv.nextDisabled then hash
  else if pv.nextTarget != "" then "#" ++ pv.nextTarget else hash

/-! ### Navigation by slug (navigateToSlug, src/docs.js lines 894 to 900,
with the hashchange listener of lines 730 to 734) -/

/-- Navigation state: the location hash (with its hash-mark prefix when
set) and the log of loadMarkdown calls, most recent last. -/
structure NavState where
  hash : String
  renders : List String
deriving DecidableEq

/-- The fragment of a hash value: substring from position one. -/
def fragOf (hash : String) : String := ⟨hash.data.drop 1⟩

/-- The hashchange listener: resolve the slug from the fragment with the
first-file fallback and load it. -/
def onHashChange (files : List DocFile) (st : NavState) : NavState :=
  let slug := initialSlug (fragOf st.hash) files
  { st with renders := st.renders ++ [slug] }

/-- navigateToSlug: when the target differs from the current fragment the
hash is assigned (firing the hashchange listener); when it is the current
fragment, loadMarkdown is called directly. -/
def navigateToSlug (files : List DocFile) (slug : String) (st : NavState) : NavState :=
  if st.hash != "#" ++ slug then onHashChange files { st with hash := "#" ++ slug }
  else { st with renders := st.renders ++ [slug] }

/-! ### Table-of-contents observers (generateTableOfContents and
setupIntersectionObserver, src/docs.js lines 526 to 620) -/

/-- Observer bookkeeping: a counter for fresh observer identities, the
identities of observers not yet disconnected, and the observer currently
referenced by the onThisPageObserver global. -/
structure ObserverState where
  nextId : Nat
  connected : List Nat
  current : Option Nat
deriving DecidableEq

/-- setupIntersectionObserver: disconnect the observer referenced by the
global, if any; return early when the document has no headings; otherwise
create a fresh observer, observe the headings, and store it in the
global. -/
def setupIntersectionObserver (headings : List String) (st : ObserverState) : ObserverState :=
  let st1 :=
    match st.current with
    | some o => { st with connected := st.connected.filter fun i => i != o }
    | none => st
  if headings.isEmpty then st1
  else
    { nextId := st1.nextId + 1
      connected := st1.connected ++ [st1.nextId]
      current := some st1.nextId }

/-- generateTableOfContents: when the rendered document has no headings the
panel is hidden and the function returns before touching the observer;
otherwise the list is rebuilt and setupIntersectionObserver runs. -/
def rebuildTOC (headings : List String) (st : ObserverState) : ObserverState :=
  if headings.isEmpty then st else setupIntersectionObserver headings st

/-- Every connected observer is the one referenced by the global: true of
the initial state and preserved by every rebuild. -/
def ObserverInv (st : ObserverState) : Prop :=
  ∀ i ∈ st.connected, st.current = some i

/-! ### Deep-link scrolling (scrollToSearchResult, src/docs.js lines 902 to
958) -/

/-- A rendered DOM element as seen by scrollToSearchResult: its text, its
number of child elements, and its vertical offset. -/
structure RenderedEl where
  textContent : String
  childCount : Nat
  offsetTop : ℚ
deriving DecidableEq

/-- The scroll performed by scrollToSearchResult: none at all, to a matched
element, or to the approximate fallback offset. -/
inductive ScrollAction where
  | noScroll : ScrollAction
  | toElement : ℚ → ScrollAction
  | approx : ℚ → ScrollAction
deriving DecidableEq

/-- The fixed header height used by the scroll offsets. -/
def headerHeight : ℚ := 60

/-- The element-selection loop: among elements with truthy text containing
the target text, keep the first one seen with the strictly smallest child
count. -/
def pickTarget (els : List RenderedEl) (targetText : String) : Option RenderedEl :=
  els.foldl
    (fun best el =>
      if el.textContent != "" && jsIncludes el.textContent targetText then
        match best with
        | none => some el
        | some b => if el.childCount < b.childCount then some el else some b
      else best)
    none

/-- scrollToSearchResult: nothing happens when the matched line index is
not below the rendered text line count; otherwise scroll to the most
specific element containing the trimmed matched line, or fall back to the
approximate offset. Both scroll offsets are clamped at zero. -/
def scrollToSearchResult (els : List RenderedEl) (contentText : String) (contentHeight : ℚ)
    (ml : MatchedLine) : ScrollAction :=
  let contentLines := splitLines contentText
  if ml.index < contentLines.length then
    let targetText := jsTrim ml.line
    match pickTarget els targetText with
    | some el => .toElement (max 0 (el.offsetTop - headerHeight - 20))
    | none =>
        .approx
          (max 0 ((ml.index : ℚ) / (contentLines.length : ℚ) * contentHeight - headerHeight))
  else .noScroll

/-! ### Search term highlighting (highlightText, src/docs.js lines 888 to
892) -/

/-- The opening marker inserted around every match. -/
def spanOpen : List Char := "<span class=\"highlight\">".data

/-- The closing marker inserted around every match. -/
def spanClose : List Char := "</span>".data

/-- Case-insensitive test that the second list starts with the first. -/
def ciHeadMatch : List Char → List Char → Bool
  | [], _ => true
  | _ :: _, [] => false
  | a :: as, b :: bs => a.toLower == b.toLower && ciHeadMatch as bs

/-- The alternation of the highlight pattern at the current position: the
first term (in pattern order) matching here. Empty alternatives cannot
arise, since the terms are the non-empty tokens of the query. -/
def findTermAt (terms : List (List Char)) (cs : List Char) : Option (List Char) :=
  terms.find? fun t => !t.isEmpty && ciHeadMatch t cs

/-- The global case-insensitive replace of the alternation by the wrapped
match: one left-to-right pass, wrapping the matched slice and resuming
after it. Fueled by the input length, which each step decreases. -/
def jsReplaceAltF (terms : List (List Char)) : Nat → List Char → List Char
  | _, [] => []
  | 0, cs => cs
  | fuel + 1, c :: cs =>
    match findTermAt terms (c :: cs) with
    | some t =>
        spanOpen ++ (c :: cs).take t.length ++ spanClose
          ++ jsReplaceAltF terms fuel ((c :: cs).drop t.length)
    | none => c :: jsReplaceAltF terms fuel cs

/-- The replace pass at its sufficient fuel. -/
def jsReplaceAlt (terms : List (List Char)) (cs : List Char) : List Char :=
  jsReplaceAltF terms cs.length cs

/-- The segmentation performed by the same pass: marked matched slices and
unmarked single characters, in order. -/
def hlSegsF (terms : List (List Char)) : Nat → List Char → List (Bool × List Char)
  | _, [] => []
  | 0, cs => [(false, cs)]
  | fuel + 1, c :: cs =>
    match findTermAt terms (c :: cs) with
    | some t => (true, (c :: cs).take t.length) :: hlSegsF terms fuel ((c :: cs).drop t.length)
    | none => (false, [c]) :: hlSegsF terms fuel cs

/-- The segmentation at its sufficient fuel. -/
def hlSegs (terms : List (List Char)) (cs : List Char) : List (Bool × List Char) :=
  hlSegsF terms cs.length cs

/-- The text of a segmentation, markers stripped. -/
def segsText (segs : List (Bool × List Char)) : List Char :=
  segs.foldr (fun s acc => s.2 ++ acc) []

/-- A segmentation rendered with every marked slice wrapped in exactly one
pair of markers. -/
def renderSegs (segs : List (Bool × List Char)) : List Char :=
  segs.foldr (fun s acc => (if s.1 then spanOpen ++ s.2 ++ spanClose else s.2) ++ acc) []

/-- The terms of the highlight pattern: the non-empty whitespace tokens of
the trimmed query. -/
def highlightTerms (query : String) : List (List Char) :=
  (queryWords (jsTrim query)).map String.data

/-- highlightText: the empty query returns the text unchanged; otherwise
the single alternation of all terms is replaced globally and
case-insensitively by the wrapped match. -/
def highlightText (text query : String) : String :=
  if query == "" then text else ⟨jsReplaceAlt (highlightTerms query) text.data⟩

/-- The pattern string built for the regular expression: the terms joined
by alternation bars inside one group, with no escaping applied. -/
def joinBar : List (List Char) → List Char
  | [] => []
  | [t] => t
  | t :: ts => t ++ '|' :: joinBar ts

/-- The source of the highlight regular expression. -/
def highlightPattern (query : String) : String :=
  ⟨'(' :: (joinBar (highlightTerms query) ++ [')'])⟩

/-! ### Concrete stores and counting helpers used by the witnesses and
counterexamples below -/

/-- The store used to witness the search claims. -/
def wSearchFiles : List DocFile :=
  [⟨"Getting Started", "gs.md", none, "intro\nthe user id here", "getting-started"⟩,
   ⟨"API", "api.md", none, "nothing", "api"⟩]

/-- The first store entry, which matches the query of the witness. -/
def wSearchDoc : DocFile :=
  ⟨"Getting Started", "gs.md", none, "intro\nthe user id here", "getting-started"⟩

/-- The two-document store used for the pagination counterexample. -/
def exPagFiles : List DocFile :=
  [⟨"A", "a.md", none, "", "a"⟩, ⟨"B", "b.md", none, "", "b"⟩]

/-- The one-document store used for the fallback counterexample. -/
def exNavFiles : List DocFile := [⟨"Guide", "g.md", none, "content", "guide"⟩]

/-- The two-document store of the slug counterexample: distinct titles that
collapse to the same slug. -/
def exDupStore : List DocFile :=
  loadStore [⟨"a b", "1.md", none, "", ""⟩, ⟨"a  b", "2.md", none, "", ""⟩]

/-- The store used to witness the amended slug round-trip. -/
def wSlugFiles : List DocFile :=
  [⟨"Getting Started", "gs.md", none, "", ""⟩, ⟨"API", "api.md", none, "", ""⟩]

/-- The number of case-insensitive occurrences of a term in a text. -/
def ciOccurrences (term text : String) : Nat :=
  (List.range (text.data.length + 1)).countP fun i => ciHeadMatch term.data (text.data.drop i)

/-- The number of positions where a marker string occurs in a text. -/
def subCount (needle hay : String) : Nat :=
  (List.range (hay.data.length + 1)).countP fun i => headMatch needle.data (hay.data.drop i)

/-! ### Helper lemmas: the two search scans agree -/

theorem bodyMatchedLines_eq_foldl (ws : List String) (Ls : List String) :
    ∀ (i : Nat) (acc : List MatchedLine),
      (Ls.enumFrom i).foldl
          (fun acc p =>
            if ws.all fun w => jsIncludes (jsToLower p.2) w then acc ++ [⟨jsTrim p.2, p.1⟩]
            else acc)
          acc
        = acc ++ bodyMatchedLines ws i Ls := by
  induction Ls with
  | nil => intro i acc; simp [bodyMatchedLines, List.enumFrom]
  | cons L Ls ih =>
    intro i acc
    simp only [List.enumFrom, List.foldl, bodyMatchedLines]
    by_cases h : (ws.all fun w => jsIncludes (jsToLower L) w) = true
    · simp only [if_pos h, ih]
      simp
    · simp only [if_neg h, ih]

theorem docsMatchedLines_eq (ws : List String) (content : String) :
    docsMatchedLines ws content = bodyMatchedLines ws 0 (splitLines content) := by
  have h := bodyMatchedLines_eq_foldl ws (splitLines content) 0 []
  simpa [docsMatchedLines, List.enum] using h

theorem foldl_push_eq_filter_map {α β : Type} (p : α → Bool) (g : α → β) :
    ∀ (l : List α) (acc : List β),
      l.foldl (fun a x => if p x then a ++ [g x] else a) acc = acc ++ (l.filter p).map g := by
  intro l
  induction l with
  | nil => intro acc; simp
  | cons x l ih =>
    intro acc
    by_cases h : p x = true
    · simp [List.foldl, h, ih]
    · simp [List.foldl, h, ih]

theorem docsPerformScan_eq (query : String) (files : List DocFile) :
    docsPerformScan query files = (files.filter (docMatches query)).map (mkResult query) := by
  have hstep :
      (fun (results : List SearchResult) (file : DocFile) =>
          let titleMatch := jsIncludes (jsToLower file.name) query
          let matchedLines := docsMatchedLines (queryWords query) file.content
          if titleMatch || !matchedLines.isEmpty then
            results ++ [⟨file.name, file.slug, matchedLines, titleMatch⟩]
          else results)
        = fun (results : List SearchResult) (file : DocFile) =>
            if docMatches query file then results ++ [mkResult query file] else results := by
    funext results file
    simp only [docMatches, mkResult, docsMatchedLines_eq]
  calc docsPerformScan query files
      = files.foldl
          (fun results file =>
            if docMatches query file then results ++ [mkResult query file] else results) [] := by
        rw [docsPerformScan, hstep]
    _ = (files.filter (docMatches query)).map (mkResult query) := by
        simpa using foldl_push_eq_filter_map (docMatches query) (mkResult query) files []

theorem filterMap_if_eq_filter_map {α β : Type} (p : α → Bool) (g : α → β) :
    ∀ l : List α, l.filterMap (fun x => if p x then some (g x) else none) = (l.filter p).map g := by
  intro l
  induction l with
  | nil => rfl
  | cons x l ih =>
    by_cases h : p x = true
    · simp [List.filterMap_cons, h, ih]
    · simp [List.filterMap_cons, h, ih]

theorem bodyPerformScan_eq (query : String) (files : List DocFile) :
    bodyPerformScan query files = (files.filter (docMatches query)).map (mkResult query) := by
  have h := filterMap_if_eq_filter_map (docMatches query) (mkResult query) files
  rw [bodyPerformScan]
  rw [← h]
  rfl

theorem scan_agree (query : String) (files : List DocFile) :
    docsPerformScan query files = bodyPerformScan query files := by
  rw [docsPerformScan_eq, bodyPerformScan_eq]

theorem bodyMatchedLines_ne_nil (ws : List String) :
    ∀ (Ls : List String) (i : Nat),
      bodyMatchedLines ws i Ls ≠ []
        ↔ ∃ L ∈ Ls, (ws.all fun w => jsIncludes (jsToLower L) w) = true := by
  intro Ls
  induction Ls with
  | nil => intro i; simp [bodyMatchedLines]
  | cons L Ls ih =>
    intro i
    by_cases h : (ws.all fun w => jsIncludes (jsToLower L) w) = true
    · simp only [bodyMatchedLines, if_pos h]
      simp only [ne_eq, List.cons_ne_nil, not_false_iff, true_iff]
      exact ⟨L, List.mem_cons_self L Ls, h⟩
    · simp only [bodyMatchedLines, if_neg h, ih (i + 1)]
      constructor
      · rintro ⟨M, hM, hall⟩
        exact ⟨M, List.mem_cons_of_mem L hM, hall⟩
      · rintro ⟨M, hM, hall⟩
        rcases List.mem_cons.mp hM with rfl | hM
        · exact absurd hall h
        · exact ⟨M, hM, hall⟩

theorem docMatches_iff (query : String) (d : DocFile) :
    docMatches query d = true
      ↔ (jsIncludes (jsToLower d.name) query = true
          ∨ ∃ L ∈ splitLines d.content,
              ∀ w ∈ queryWords query, jsIncludes (jsToLower L) w = true) := by
  rw [docMatches, Bool.or_eq_true]
  constructor
  · rintro (h | h)
    · exact Or.inl h
    · refine Or.inr ?_
      have hne : bodyMatchedLines (queryWords query) 0 (splitLines d.content) ≠ [] := by
        simpa [List.isEmpty_iff] using h
      obtain ⟨L, hL, hall⟩ := (bodyMatchedLines_ne_nil _ _ 0).mp hne
      exact ⟨L, hL, by simpa [List.all_eq_true] using hall⟩
  · rintro (h | ⟨L, hL, hall⟩)
    · exact Or.inl h
    · refine Or.inr ?_
      have hne : bodyMatchedLines (queryWords query) 0 (splitLines d.content) ≠ [] :=
        (bodyMatchedLines_ne_nil _ _ 0).mpr ⟨L, hL, by simpa [List.all_eq_true] using hall⟩
      simpa [List.isEmpty_iff] using hne

/-! ### Helper lemmas: slug derivation and lookup -/

theorem wsSplitAux_ne_nil (l : List Char) : ∀ b : Bool, wsSplitAux b l ≠ [] := by
  induction l with
  | nil => intro b; simp [wsSplitAux]
  | cons c cs ih =>
    intro b
    by_cases hw : c.isWhitespace
    · by_cases hb : b = true
      · subst hb; simpa [wsSplitAux, hw] using ih true
      · simp [wsSplitAux, hw, Bool.eq_false_iff.mpr hb, eq_false_of_ne_true hb]
    · simp only [wsSplitAux, if_neg hw]
      cases hs : wsSplitAux false cs with
      | nil => simp
      | cons p ps => simp

theorem collapseWsAux_eq (l : List Char) :
    ∀ b : Bool, collapseWsAux b l = joinHyphen (wsSplitAux b l) := by
  induction l with
  | nil => intro b; rfl
  | cons c cs ih =>
    intro b
    by_cases hw : c.isWhitespace
    · cases b with
      | true => simp only [collapseWsAux, wsSplitAux, if_pos hw, if_pos rfl]; exact ih true
      | false =>
        simp only [collapseWsAux, wsSplitAux, if_pos hw, Bool.false_eq_true, if_neg, if_false]
        cases hs : wsSplitAux true cs with
        | nil => exact absurd hs (wsSplitAux_ne_nil cs true)
        | cons p ps =>
          have := ih true
          rw [hs] at this
          simp only [joinHyphen, this]
          simp
    · simp only [collapseWsAux, wsSplitAux, if_neg hw]
      cases hs : wsSplitAux false cs with
      | nil => exact absurd hs (wsSplitAux_ne_nil cs false)
      | cons p ps =>
        have := ih false
        rw [hs] at this
        cases ps with
        | nil => simp only [joinHyphen, this]
        | cons q qs => simp only [joinHyphen, this]; simp

/-- What slugify computes: the whitespace-run pieces of the lowercased
name, joined by single hyphens. -/
theorem slugify_spec (name : String) :
    slugify name = ⟨joinHyphen (wsSplitAux false (name.data.map Char.toLower))⟩ := by
  rw [slugify, collapseWsAux_eq]

theorem findBySlug_of_nodup :
    ∀ files : List DocFile, (files.map DocFile.slug).Nodup →
      ∀ d ∈ files, findBySlug files d.slug = some d := by
  intro files
  induction files with
  | nil => intro _ d hd; simp at hd
  | cons f fs ih =>
    intro hnd d hd
    have hnd2 := hnd
    rw [List.map_cons, List.nodup_cons] at hnd2
    rcases List.mem_cons.mp hd with rfl | hdf
    · simp [findBySlug, List.find?]
    · have hne : f.slug ≠ d.slug := by
        intro he
        exact hnd2.1 (he ▸ List.mem_map_of_mem DocFile.slug hdf)
      have : (f.slug == d.slug) = false := beq_eq_false_iff_ne.mpr hne
      simp only [findBySlug, List.find?, this]
      exact ih hnd2.2 d hdf

theorem loadStore_slug (files : List DocFile) :
    ∀ d ∈ loadStore files, d.slug = slugify d.name := by
  intro d hd
  rw [loadStore] at hd
  obtain ⟨f, _, rfl⟩ := List.mem_map.mp hd
  rfl

/-! ### Helper lemmas: navigation state -/

theorem fragOf_hash_append (s : String) : fragOf ("#" ++ s) = s := by
  cases s with
  | mk data => rfl

theorem observer_setup_inv (headings : List String) (st : ObserverState)
    (hinv : ObserverInv st) (hne : headings.isEmpty = false) :
    (setupIntersectionObserver headings st).connected = [st.nextId]
      ∧ ObserverInv (setupIntersectionObserver headings st) := by
  have hfilter :
      (match st.current with
        | some o => { st with connected := st.connected.filter fun i => i != o }
        | none => st).connected = [] := by
    cases hc : st.current with
    | none =>
      cases hcon : st.connected with
      | nil => simp [hcon]
      | cons i l =>
        have := hinv i (by simp [hcon])
        rw [hc] at this
        exact absurd this (by simp)
    | some o =>
      simp only
      rw [List.filter_eq_nil_iff]
      intro i hi
      have := hinv i hi
      rw [hc] at this
      have : i = o := by injection this with h; exact h.symm
      simp [this]
  constructor
  · rw [setupIntersectionObserver]
    rw [if_neg (by simp [hne])]
    cases hc : st.current with
    | none => simp only [hc] at hfilter ⊢; simp [hfilter]
    | some o => simp only [hc] at hfilter ⊢; simp [hfilter]
  · rw [setupIntersectionObserver]
    rw [if_neg (by simp [hne])]
    intro i hi
    cases hc : st.current with
    | none =>
      simp only [hc] at hfilter hi
      simp only [hfilter, List.nil_append, List.mem_singleton] at hi
      simp [hi]
    | some o =>
      simp only [hc] at hfilter hi
      simp only [hfilter, List.nil_append, List.mem_singleton] at hi
      simp [hi]

/-! ### Helper lemmas: deep-link scrolling -/

theorem pickTarget_eq_none (els : List RenderedEl) (targetText : String)
    (h : ∀ el ∈ els, (el.textContent != "" && jsIncludes el.textContent targetText) = false) :
    pickTarget els targetText = none := by
  rw [pickTarget]
  have : ∀ l : List RenderedEl, (∀ el ∈ l,
      (el.textContent != "" && jsIncludes el.textContent targetText) = false) →
      l.foldl
        (fun best el =>
          if el.textContent != "" && jsIncludes el.textContent targetText then
            match best with
            | none => some el
            | some b => if el.childCount < b.childCount then some el else some b
          else best)
        none = none := by
    intro l
    induction l with
    | nil => intro _; rfl
    | cons e l ih =>
      intro hl
      simp only [List.foldl, hl e (List.mem_cons_self e l), if_false, Bool.false_eq_true]
      exact ih fun el hel => hl el (List.mem_cons_of_mem e hel)
  exact this els h

theorem scroll_offset_nonneg (els : List RenderedEl) (contentText : String) (contentHeight : ℚ)
    (ml : MatchedLine) (o : ℚ)
    (h : scrollToSearchResult els contentText contentHeight ml = .toElement o
        ∨ scrollToSearchResult els contentText contentHeight ml = .approx o) :
    0 ≤ o := by
  rw [scrollToSearchResult] at h
  by_cases hidx : ml.index < (splitLines contentText).length
  · simp only [if_pos hidx] at h
    cases hpt : pickTarget els (jsTrim ml.line) with
    | some el =>
      rw [hpt] at h
      rcases h with h | h
      · have : max 0 (el.offsetTop - headerHeight - 20) = o := by injection h
        rw [← this]; exact le_max_left _ _
      · exact absurd h (by simp)
    | none =>
      rw [hpt] at h
      rcases h with h | h
      · exact absurd h (by simp)
      · have :
            max 0 ((ml.index : ℚ) / ((splitLines contentText).length : ℚ) * contentHeight
                - headerHeight) = o := by injection h
        rw [← this]; exact le_max_left _ _
  · simp only [if_neg hidx] at h
    rcases h with h | h <;> exact absurd h (by simp)

/-! ### Helper lemmas: highlighting -/

theorem ciHeadMatch_length {t : List Char} :
    ∀ {l : List Char}, ciHeadMatch t l = true → t.length ≤ l.length := by
  induction t with
  | nil => intro l _; simp
  | cons a as ih =>
    intro l h
    cases l with
    | nil => simp [ciHeadMatch] at h
    | cons b bs =>
      rw [ciHeadMatch, Bool.and_eq_true] at h
      simpa [List.length_cons] using ih h.2

theorem ciHeadMatch_take {t : List Char} :
    ∀ {l : List Char}, ciHeadMatch t l = true → ciHeadMatch t (l.take t.length) = true := by
  induction t with
  | nil => intro l _; rfl
  | cons a as ih =>
    intro l h
    cases l with
    | nil => simp [ciHeadMatch] at h
    | cons b bs =>
      rw [ciHeadMatch, Bool.and_eq_true] at h
      simp only [List.length_cons, List.take_succ_cons, ciHeadMatch, Bool.and_eq_true]
      exact ⟨h.1, ih h.2⟩

theorem segsText_nil : segsText [] = [] := rfl

theorem segsText_cons (s : Bool × List Char) (segs : List (Bool × List Char)) :
    segsText (s :: segs) = s.2 ++ segsText segs := rfl

theorem renderSegs_nil : renderSegs [] = [] := rfl

theorem renderSegs_cons (s : Bool × List Char) (segs : List (Bool × List Char)) :
    renderSegs (s :: segs) = (if s.1 then spanOpen ++ s.2 ++ spanClose else s.2)
      ++ renderSegs segs := rfl

theorem segsText_hlSegsF (terms : List (List Char)) :
    ∀ (fuel : Nat) (cs : List Char), segsText (hlSegsF terms fuel cs) = cs := by
  intro fuel
  induction fuel with
  | zero =>
    intro cs
    cases cs with
    | nil => rfl
    | cons c cs => simp [hlSegsF, segsText_cons, segsText_nil]
  | succ fuel ih =>
    intro cs
    cases cs with
    | nil => rfl
    | cons c cs =>
      rw [hlSegsF]
      cases hft : findTermAt terms (c :: cs) with
      | some t =>
        rw [segsText_cons, ih]
        exact List.take_append_drop t.length (c :: cs)
      | none => rw [segsText_cons, ih]; rfl

theorem jsReplaceAltF_eq_renderSegs (terms : List (List Char)) :
    ∀ (fuel : Nat) (cs : List Char),
      jsReplaceAltF terms fuel cs = renderSegs (hlSegsF terms fuel cs) := by
  intro fuel
  induction fuel with
  | zero =>
    intro cs
    cases cs with
    | nil => rfl
    | cons c cs => simp [jsReplaceAltF, hlSegsF, renderSegs]
  | succ fuel ih =>
    intro cs
    cases cs with
    | nil => rfl
    | cons c cs =>
      rw [jsReplaceAltF, hlSegsF]
      cases hft : findTermAt terms (c :: cs) with
      | some t => rw [renderSegs_cons]; simp only [List.append_assoc]; simp [ih]
      | none => rw [renderSegs_cons, ih]; rfl

theorem hlSegsF_marked (terms : List (List Char)) :
    ∀ (fuel : Nat) (cs : List Char) (s : Bool × List Char),
      s ∈ hlSegsF terms fuel cs → s.1 = true →
        ∃ t ∈ terms, t.isEmpty = false ∧ ciHeadMatch t s.2 = true ∧ s.2.length = t.length := by
  intro fuel
  induction fuel with
  | zero =>
    intro cs s hs htrue
    cases cs with
    | nil => simp [hlSegsF] at hs
    | cons c cs =>
      simp only [hlSegsF, List.mem_singleton] at hs
      rw [hs] at htrue
      simp at htrue
  | succ fuel ih =>
    intro cs s hs htrue
    cases cs with
    | nil => simp [hlSegsF] at hs
    | cons c cs =>
      rw [hlSegsF] at hs
      cases hft : findTermAt terms (c :: cs) with
      | some t =>
        rw [hft] at hs
        rcases List.mem_cons.mp hs with rfl | hs2
        · have hmem : t ∈ terms := List.mem_of_find?_eq_some hft
          have hp := List.find?_some hft
          rw [Bool.and_eq_true] at hp
          have hemp : t.isEmpty = false := by simpa using hp.1
          have hlen : t.length ≤ (c :: cs).length := ciHeadMatch_length hp.2
          refine ⟨t, hmem, hemp, ciHeadMatch_take hp.2, ?_⟩
          rw [List.length_take]
          exact Nat.min_eq_left hlen
        · exact ih _ s hs2 htrue
      | none =>
        rw [hft] at hs
        rcases List.mem_cons.mp hs with rfl | hs2
        · simp at htrue
        · exact ih _ s hs2 htrue

theorem jsReplaceAltF_id_of_no_match (terms : List (List Char)) :
    ∀ (fuel : Nat) (cs : List Char),
      (∀ i : Nat, findTermAt terms (cs.drop i) = none) →
        jsReplaceAltF terms fuel cs = cs := by
  intro fuel
  induction fuel with
  | zero =>
    intro cs _
    cases cs with
    | nil => rfl
    | cons c cs => rfl
  | succ fuel ih =>
    intro cs h
    cases cs with
    | nil => rfl
    | cons c cs =>
      rw [jsReplaceAltF]
      have h0 := h 0
      rw [List.drop_zero] at h0
      rw [h0]
      have : jsReplaceAltF terms fuel cs = cs := by
        refine ih cs fun i => ?_
        have := h (i + 1)
        simpa using this
      rw [this]

theorem joinBar_count (c : Char) (hc : c ≠ '|') :
    ∀ ts : List (List Char), (joinBar ts).count c = (ts.map fun t => t.count c).sum := by
  intro ts
  induction ts with
  | nil => rfl
  | cons t ts ih =>
    cases ts with
    | nil => simp [joinBar]
    | cons u us =>
      have hj : joinBar (t :: u :: us) = t ++ '|' :: joinBar (u :: us) := rfl
      rw [hj, List.count_append, List.count_cons, ih]
      have hbar : ('|' == c) = false := by
        rw [beq_eq_false_iff_ne]
        exact fun h => hc h.symm
      simp [hbar]

/-! ### Claims about the search scan -/

/-- Claim C1: for every document store and normalized query of length at
least two, a document appears in the result sequence of the search exactly
when its lowercased title contains the query as a substring or some
content line (split on line breaks) contains every whitespace-delimited
query term in its lowercased form; the result sequence is the matching
documents in store (manifest) order. -/
theorem search_membership_and_order (q : String) (files : List DocFile) (d : DocFile)
    (hq : 2 ≤ q.length) :
    (docsPerformScan q files = [] → performSearchOutcome q files = .noResults)
  ∧ (docsPerformScan q files ≠ [] →
      performSearchOutcome q files = .results (docsPerformScan q files))
  ∧ docsPerformScan q files = (files.filter (docMatches q)).map (mkResult q)
  ∧ (docMatches q d = true ↔
      (jsIncludes (jsToLower d.name) q = true
        ∨ ∃ L ∈ splitLines d.content,
            ∀ w ∈ queryWords q, jsIncludes (jsToLower L) w = true)) := by
  have hnlt : ¬q.length < 2 := by omega
  refine ⟨?_, ?_, docsPerformScan_eq q files, docMatches_iff q d⟩
  · intro h
    rw [performSearchOutcome, if_neg hnlt, h]
  · intro h
    rw [performSearchOutcome, if_neg hnlt]
    cases hscan : docsPerformScan q files with
    | nil => exact absurd hscan h
    | cons r rs => rfl

theorem search_membership_and_order_witness :
    2 ≤ ("user id" : String).length
  ∧ ((docsPerformScan "user id" wSearchFiles = []
        → performSearchOutcome "user id" wSearchFiles = .noResults)
    ∧ (docsPerformScan "user id" wSearchFiles ≠ []
        → performSearchOutcome "user id" wSearchFiles
            = .results (docsPerformScan "user id" wSearchFiles))
    ∧ docsPerformScan "user id" wSearchFiles
        = (wSearchFiles.filter (docMatches "user id")).map (mkResult "user id")
    ∧ (docMatches "user id" wSearchDoc = true ↔
        (jsIncludes (jsToLower wSearchDoc.name) "user id" = true
          ∨ ∃ L ∈ splitLines wSearchDoc.content,
              ∀ w ∈ queryWords "user id", jsIncludes (jsToLower L) w = true))) :=
  ⟨by decide, search_membership_and_order "user id" wSearchFiles wSearchDoc (by decide)⟩

/-- Claim C2: a query whose normalized form is shorter than two characters
always yields the too-short signal, a state distinct from both the
no-results marker and any populated result list, and never one of the
latter two. In src/docs.js the signal is the rendered hint, whose markup
differs from the no-results markup; in src/body.js the early return
leaves the container cleared, likewise distinct from both other states. -/
theorem short_query_yields_hint (q : String) (files : List DocFile) (hq : q.length < 2) :
    performSearchOutcome q files = .tooShort
  ∧ (∀ rs : List SearchResult, SearchOutcome.tooShort ≠ SearchOutcome.results rs)
  ∧ SearchOutcome.tooShort ≠ SearchOutcome.noResults
  ∧ searchHintHTML ≠ noResultsHTML "search-overlay-result"
  ∧ bodyPerformSearchOutcome q files = .cleared
  ∧ (∀ rs : List SearchResult, BodySearchOutcome.cleared ≠ BodySearchOutcome.results rs)
  ∧ BodySearchOutcome.cleared ≠ BodySearchOutcome.noResults := by
  refine ⟨?_, fun rs => by simp, by simp, by decide, ?_, fun rs => by simp, by simp⟩
  · rw [performSearchOutcome, if_pos hq]
  · rw [bodyPerformSearchOutcome, if_pos hq]

theorem short_query_yields_hint_witness :
    (("a" : String).length < 2)
  ∧ (performSearchOutcome "a" wSearchFiles = .tooShort
    ∧ (∀ rs : List SearchResult, SearchOutcome.tooShort ≠ SearchOutcome.results rs)
    ∧ SearchOutcome.tooShort ≠ SearchOutcome.noResults
    ∧ searchHintHTML ≠ noResultsHTML "search-overlay-result"
    ∧ bodyPerformSearchOutcome "a" wSearchFiles = .cleared
    ∧ (∀ rs : List SearchResult, BodySearchOutcome.cleared ≠ BodySearchOutcome.results rs)
    ∧ BodySearchOutcome.cleared ≠ BodySearchOutcome.noResults) :=
  ⟨by decide, short_query_yields_hint "a" wSearchFiles (by decide)⟩

/-- Claim C10: the duplicate search scans of src/docs.js and src/body.js
produce the same result sequence for every store and every normalized
query of length at least two: same documents, same order, same title-match
flags, and the same trimmed matched lines with the same indices. -/
theorem duplicate_scans_agree (q : String) (files : List DocFile) (_hq : 2 ≤ q.length) :
    docsPerformScan q files = bodyPerformScan q files :=
  scan_agree q files

theorem duplicate_scans_agree_witness :
    2 ≤ ("user id" : String).length
  ∧ docsPerformScan "user id" wSearchFiles = bodyPerformScan "user id" wSearchFiles :=
  ⟨by decide, duplicate_scans_agree "user id" wSearchFiles (by decide)⟩

/-! ### Claims about pagination -/

/-- Claim C3, counterexample: with a non-empty store and a slug matching no
document, the active index is unresolved (minus one) rather than zero, yet
updatePagination disables the previous button, so previous is not disabled
exactly when the active index is zero. -/
theorem pagination_prev_disabled_counterexample :
    findSlugIdx exPagFiles "zzz" = -1
  ∧ findSlugIdx exPagFiles "zzz" ≠ 0
  ∧ (updatePagination exPagFiles "zzz").map PaginationView.prevDisabled = some true := by
  decide

theorem findSlugIdx_bounds (files : List DocFile) (slug : String) :
    -1 ≤ findSlugIdx files slug ∧ findSlugIdx files slug < (files.length : Int) := by
  cases h : files.findIdx? fun f => f.slug == slug with
  | none =>
    have hval : findSlugIdx files slug = -1 := by rw [findSlugIdx, h]
    rw [hval]
    refine ⟨le_refl _, ?_⟩
    have : (0 : Int) ≤ (files.length : Int) := Int.ofNat_nonneg _
    omega
  | some n =>
    have hval : findSlugIdx files slug = (n : Int) := by rw [findSlugIdx, h]
    rw [hval]
    have hlt : n < files.length := (List.findIdx?_eq_some_iff_findIdx_eq.mp h).1
    exact ⟨by omega, by exact_mod_cast hlt⟩

/-- Claim C3, amended: for every non-empty store and every current slug,
updatePagination disables previous exactly when the active index is zero
or unresolved (minus one), and disables next exactly when the active index
is unresolved or the last index; a disabled operation leaves the location
hash unchanged (a no-op, not an error). -/
theorem pagination_boundaries (files : List DocFile) (currentSlug : String)
    (hne : files ≠ []) :
    ∃ pv, updatePagination files currentSlug = some pv
      ∧ (pv.prevDisabled = true ↔
          (findSlugIdx files currentSlug = 0 ∨ findSlugIdx files currentSlug = -1))
      ∧ (pv.nextDisabled = true ↔
          (findSlugIdx files currentSlug = -1
            ∨ findSlugIdx files currentSlug = (files.length : Int) - 1))
      ∧ (pv.prevDisabled = true → ∀ h : String, pressPrev pv h = h)
      ∧ (pv.nextDisabled = true → ∀ h : String, pressNext pv h = h) := by
  have hemp : files.isEmpty = false := by simpa [List.isEmpty_iff] using hne
  obtain ⟨hlo, hhi⟩ := findSlugIdx_bounds files currentSlug
  refine ⟨_, by rw [updatePagination, if_neg (by simp [hemp])], ?_, ?_, ?_, ?_⟩
  · simp only [decide_eq_true_eq]
    omega
  · simp only [Bool.or_eq_true, decide_eq_true_eq]
    have hlen : 1 ≤ (files.length : Int) := by
      cases files with
      | nil => exact absurd rfl hne
      | cons f fs => simp
    omega
  · intro hd h
    rw [pressPrev, if_pos hd]
  · intro hd h
    rw [pressNext, if_pos hd]

theorem pagination_boundaries_witness :
    exPagFiles ≠ []
  ∧ ∃ pv, updatePagination exPagFiles "b" = some pv
      ∧ (pv.prevDisabled = true ↔
          (findSlugIdx exPagFiles "b" = 0 ∨ findSlugIdx exPagFiles "b" = -1))
      ∧ (pv.nextDisabled = true ↔
          (findSlugIdx exPagFiles "b" = -1
            ∨ findSlugIdx exPagFiles "b" = (exPagFiles.length : Int) - 1))
      ∧ (pv.prevDisabled = true → ∀ h : String, pressPrev pv h = h)
      ∧ (pv.nextDisabled = true → ∀ h : String, pressNext pv h = h) :=
  ⟨by decide, pagination_boundaries exPagFiles "b" (by decide)⟩

/-! ### Claims about the active-slug fallback -/

/-- Claim C4, counterexample: with a populated store and a non-empty URL
fragment matching no document slug, the resolved slug stays at the unknown
fragment and loadMarkdown shows the failure message; the first document in
manifest order does not become active. -/
theorem unknown_fragment_counterexample :
    initialSlug "bogus" exNavFiles = "bogus"
  ∧ loadMarkdown exNavFiles (initialSlug "bogus" exNavFiles) = .failed
  ∧ initialSlug "bogus" exNavFiles ≠ "guide" := by
  decide

/-- Claim C4, amended: once the store is populated, an empty URL fragment
falls back to the first document in manifest order, which is then found
and rendered; a non-empty fragment is kept as the active slug even when it
matches no document, in which case the content pane shows the failure
message rather than redirecting. -/
theorem fragment_fallback (files : List DocFile) (fragment : String) (hne : files ≠ []) :
    (fragment = "" →
      ∃ f fs, files = f :: fs ∧ initialSlug fragment files = f.slug
        ∧ loadMarkdown files (initialSlug fragment files) = .rendered f.slug)
  ∧ (fragment ≠ "" → initialSlug fragment files = fragment) := by
  constructor
  · intro hfrag
    cases files with
    | nil => exact absurd rfl hne
    | cons f fs =>
      refine ⟨f, fs, rfl, ?_, ?_⟩
      · rw [hfrag]; rfl
      · rw [hfrag]
        have hslug : initialSlug "" (f :: fs) = f.slug := rfl
        rw [hslug, loadMarkdown, findBySlug]
        simp [List.find?]
  · intro hfrag
    rw [initialSlug.eq_def, if_pos (by simpa [bne_iff_ne] using hfrag)]

theorem fragment_fallback_witness :
    exNavFiles ≠ []
  ∧ (("" : String) = "" →
      ∃ f fs, exNavFiles = f :: fs ∧ initialSlug "" exNavFiles = f.slug
        ∧ loadMarkdown exNavFiles (initialSlug "" exNavFiles) = .rendered f.slug)
  ∧ (("" : String) ≠ "" → initialSlug "" exNavFiles = "") :=
  ⟨by decide, fragment_fallback exNavFiles "" (by decide)⟩

/-! ### Claim about re-activating the current slug -/

/-- Claim C5: activating a slug equal to the current URL fragment still
calls loadMarkdown directly, so the content pane is refreshed; and after
any activation of a slug, a second consecutive activation of the same slug
always appends a fresh render, never a no-op. -/
theorem activate_same_slug_rerenders (files : List DocFile) (slug : String) (st : NavState) :
    (st.hash = "#" ++ slug → (navigateToSlug files slug st).renders = st.renders ++ [slug])
  ∧ (navigateToSlug files slug (navigateToSlug files slug st)).renders
      = (navigateToSlug files slug st).renders ++ [slug] := by
  have hsame : ∀ st2 : NavState, st2.hash = "#" ++ slug →
      (navigateToSlug files slug st2).renders = st2.renders ++ [slug] := by
    intro st2 h2
    rw [navigateToSlug, h2]
    simp
  refine ⟨hsame st, ?_⟩
  refine hsame _ ?_
  rw [navigateToSlug]
  by_cases h : st.hash = "#" ++ slug
  · rw [if_neg (by simp [h])]
    exact h
  · rw [if_pos (by simpa [bne_iff_ne] using h)]
    rfl

theorem activate_same_slug_rerenders_witness :
    (NavState.mk "#guide" []).hash = "#" ++ "guide"
  ∧ ((navigateToSlug exNavFiles "guide" ⟨"#guide", []⟩).renders = [] ++ ["guide"]
    ∧ (navigateToSlug exNavFiles "guide"
          (navigateToSlug exNavFiles "guide" ⟨"#guide", []⟩)).renders
        = (navigateToSlug exNavFiles "guide" ⟨"#guide", []⟩).renders ++ ["guide"]) := by
  refine ⟨by decide, ?_, ?_⟩
  · exact (activate_same_slug_rerenders exNavFiles "guide" ⟨"#guide", []⟩).1 (by decide)
  · exact (activate_same_slug_rerenders exNavFiles "guide" ⟨"#guide", []⟩).2

/-! ### Claims about slug derivation and lookup -/

/-- Claim C6, counterexample: the store holds two documents with distinct
titles, yet both titles slugify to the same slug, and looking up the slug
of the second title returns the document with the first title, so
uniqueness of titles does not make the slug round-trip return the document
with that title. -/
theorem slug_roundtrip_counterexample :
    exDupStore.map DocFile.name = ["a b", "a  b"]
  ∧ ("a b" : String) ≠ "a  b"
  ∧ slugify "a b" = slugify "a  b"
  ∧ (findBySlug exDupStore (slugify "a  b")).map DocFile.name = some "a b" := by
  decide

/-- Claim C6, amended: slugify deterministically computes the lowercased
title with every whitespace run collapsed to a single hyphen (stated as
the hyphen-join of the whitespace-run pieces of the lowercased title); and
whenever the derived slugs of the store are pairwise distinct (uniqueness
of titles alone does not suffice), looking up the slug of a stored
document's title returns that document. -/
theorem slug_roundtrip (files : List DocFile)
    (hnd : ((loadStore files).map DocFile.slug).Nodup) :
    (∀ name : String,
      slugify name = ⟨joinHyphen (wsSplitAux false (name.data.map Char.toLower))⟩)
  ∧ (∀ d ∈ loadStore files, findBySlug (loadStore files) (slugify d.name) = some d) := by
  refine ⟨slugify_spec, fun d hd => ?_⟩
  rw [← loadStore_slug files d hd]
  exact findBySlug_of_nodup _ hnd d hd

theorem slug_roundtrip_witness :
    ((loadStore wSlugFiles).map DocFile.slug).Nodup
  ∧ ((∀ name : String,
        slugify name = ⟨joinHyphen (wsSplitAux false (name.data.map Char.toLower))⟩)
    ∧ (∀ d ∈ loadStore wSlugFiles,
        findBySlug (loadStore wSlugFiles) (slugify d.name) = some d)) :=
  ⟨by decide, slug_roundtrip wSlugFiles (by decide)⟩

/-! ### Claims about highlighting -/

/-- Claim C7, counterexample: the term aba occurs twice case-insensitively
in the text ababa, but the highlighter wraps only the first, leftmost
occurrence in a marker span (the output carries a single span), because
the second occurrence overlaps the already consumed match; so not every
occurrence of a query term is wrapped. -/
theorem highlight_counterexample :
    ciOccurrences "aba" "ababa" = 2
  ∧ highlightText "ababa" "aba" = "<span class=\"highlight\">aba</span>ba"
  ∧ subCount "<span" (highlightText "ababa" "aba") = 1 := by
  decide

/-- Claim C7, amended: for every text and non-empty query, the highlighter
performs one left-to-right pass of the single alternation of all query
terms: the output is the segmentation of the text rendered with every
matched slice wrapped in exactly one marker span (never double-wrapped);
stripping the markers recovers the text; every wrapped slice is a
case-insensitive occurrence of some query term; occurrences overlapping an
earlier (leftmost, first-alternative) match are not wrapped, and when no
term occurs at any position the text is returned unchanged; the pattern is
built from the raw terms with no escaping of regular-expression
metacharacters (no characters beyond the group and alternation frame are
added). -/
theorem highlight_wraps_scan_matches (text query : String) (hq : query ≠ "") :
    (highlightText text query).data = renderSegs (hlSegs (highlightTerms query) text.data)
  ∧ segsText (hlSegs (highlightTerms query) text.data) = text.data
  ∧ (∀ s ∈ hlSegs (highlightTerms query) text.data, s.1 = true →
      ∃ t ∈ highlightTerms query,
        t.isEmpty = false ∧ ciHeadMatch t s.2 = true ∧ s.2.length = t.length)
  ∧ ((∀ i : Nat, ∀ t ∈ highlightTerms query,
        ¬(t.isEmpty = false ∧ ciHeadMatch t (text.data.drop i) = true)) →
      highlightText text query = text)
  ∧ (∀ c : Char, c ≠ '(' → c ≠ ')' → c ≠ '|' →
      (highlightPattern query).data.count c
        = ((highlightTerms query).map fun t => t.count c).sum) := by
  have hqb : (query == "") = false := beq_eq_false_iff_ne.mpr hq
  refine ⟨?_, segsText_hlSegsF _ _ _, hlSegsF_marked _ _ _, ?_, ?_⟩
  · rw [highlightText, if_neg (by simp [hqb])]
    exact jsReplaceAltF_eq_renderSegs _ _ _
  · intro hno
    have hnone : ∀ i : Nat, findTermAt (highlightTerms query) (text.data.drop i) = none := by
      intro i
      rw [findTermAt, List.find?_eq_none]
      intro t ht
      rw [Bool.and_eq_true]
      intro ⟨h1, h2⟩
      exact hno i t ht ⟨by simpa using h1, h2⟩
    rw [highlightText, if_neg (by simp [hqb])]
    rw [jsReplaceAlt, jsReplaceAltF_id_of_no_match _ _ _ hnone]
  · intro c hc1 hc2 hc3
    have hpat : (highlightPattern query).data
        = '(' :: (joinBar (highlightTerms query) ++ [')']) := rfl
    rw [hpat, List.count_cons, List.count_append]
    have h52 : ('(' == c) = false := beq_eq_false_iff_ne.mpr fun h => hc1 h.symm
    have h53 : ((')' : Char) == c) = false := beq_eq_false_iff_ne.mpr fun h => hc2 h.symm
    rw [joinBar_count c hc3]
    have h54 : (c == ')') = false := beq_eq_false_iff_ne.mpr hc2
    have h55 : (c == '(') = false := beq_eq_false_iff_ne.mpr hc1
    simp [List.count_cons, List.count_nil, h52, h53, h54, h55]

theorem highlight_wraps_scan_matches_witness :
    ("ab" : String) ≠ ""
  ∧ ((highlightText "xaby" "ab").data
        = renderSegs (hlSegs (highlightTerms "ab") "xaby".data)
    ∧ segsText (hlSegs (highlightTerms "ab") "xaby".data) = "xaby".data
    ∧ (∀ s ∈ hlSegs (highlightTerms "ab") "xaby".data, s.1 = true →
        ∃ t ∈ highlightTerms "ab",
          t.isEmpty = false ∧ ciHeadMatch t s.2 = true ∧ s.2.length = t.length)
    ∧ ((∀ i : Nat, ∀ t ∈ highlightTerms "ab",
          ¬(t.isEmpty = false ∧ ciHeadMatch t ("xaby".data.drop i) = true)) →
        highlightText "xaby" "ab" = "xaby")
    ∧ (∀ c : Char, c ≠ '(' → c ≠ ')' → c ≠ '|' →
        (highlightPattern "ab").data.count c
          = ((highlightTerms "ab").map fun t => t.count c).sum)) :=
  ⟨by decide, highlight_wraps_scan_matches "xaby" "ab" (by decide)⟩

/-! ### Claims about deep-link scrolling -/

/-- Claim C8, counterexample: with no matching rendered element, a matched
line index of one, two rendered text lines, and a content height of one
hundred, the claimed approximate offset is fifty, but the code scrolls to
zero: it first subtracts the fixed header height and only then clamps, so
the scroll target is not the bare ratio offset. -/
theorem scroll_fallback_counterexample :
    scrollToSearchResult [] "a\nb" 100 ⟨"b", 1⟩ = .approx 0
  ∧ ((1 : ℚ) / 2) * 100 = 50
  ∧ ScrollAction.approx 0 ≠ ScrollAction.approx (((1 : ℚ) / 2) * 100) := by
  have hlen : (splitLines "a\nb").length = 2 := by decide
  have hpick : pickTarget [] (jsTrim "b") = none := rfl
  refine ⟨?_, by norm_num, ?_⟩
  · rw [scrollToSearchResult.eq_def]
    simp only [hlen, hpick]
    rw [if_pos (by norm_num)]
    have harith :
        max (0 : ℚ) (((1 : Nat) : ℚ) / ((2 : Nat) : ℚ) * 100 - headerHeight) = 0 := by
      rw [headerHeight]
      rw [max_eq_left (by norm_num)]
    rw [harith]
  · intro h
    have : (0 : ℚ) = ((1 : ℚ) / 2) * 100 := by injection h
    norm_num at this

/-- Claim C8, amended: whenever no rendered element has truthy text
containing the matched line's trimmed text and the matched line index is
below the rendered text's line count, the fallback scrolls to the
approximate offset (matchedLineIndex / totalTextLines) * totalRenderedHeight
lowered by the fixed header height and clamped at zero; the scroll step is
a total function (it never throws) and every offset it produces, on any
input, is non-negative. -/
theorem scroll_fallback_approx (els : List RenderedEl) (contentText : String)
    (contentHeight : ℚ) (ml : MatchedLine)
    (hno : ∀ el ∈ els,
      (el.textContent != "" && jsIncludes el.textContent (jsTrim ml.line)) = false)
    (hidx : ml.index < (splitLines contentText).length) :
    scrollToSearchResult els contentText contentHeight ml
      = .approx (max 0 ((ml.index : ℚ) / ((splitLines contentText).length : ℚ) * contentHeight
          - headerHeight))
  ∧ (∀ (els2 : List RenderedEl) (text2 : String) (h2 : ℚ) (ml2 : MatchedLine) (o : ℚ),
      (scrollToSearchResult els2 text2 h2 ml2 = .toElement o
        ∨ scrollToSearchResult els2 text2 h2 ml2 = .approx o) → 0 ≤ o) := by
  refine ⟨?_, fun els2 text2 h2 ml2 o ho => scroll_offset_nonneg els2 text2 h2 ml2 o ho⟩
  rw [scrollToSearchResult.eq_def]
  simp only [pickTarget_eq_none els (jsTrim ml.line) hno]
  rw [if_pos hidx]

theorem scroll_fallback_approx_witness :
    (∀ el ∈ ([] : List RenderedEl),
      (el.textContent != "" && jsIncludes el.textContent (jsTrim "b")) = false)
  ∧ (1 : Nat) < (splitLines "a\nb\nc").length
  ∧ (scrollToSearchResult [] "a\nb\nc" 300 ⟨"b", 1⟩
      = .approx (max 0 (((1 : Nat) : ℚ) / (((splitLines "a\nb\nc").length : Nat) : ℚ) * 300
          - headerHeight))
    ∧ (∀ (els2 : List RenderedEl) (text2 : String) (h2 : ℚ) (ml2 : MatchedLine) (o : ℚ),
        (scrollToSearchResult els2 text2 h2 ml2 = .toElement o
          ∨ scrollToSearchResult els2 text2 h2 ml2 = .approx o) → 0 ≤ o)) :=
  ⟨by decide, by decide,
    scroll_fallback_approx [] "a\nb\nc" 300 ⟨"b", 1⟩ (by decide) (by decide)⟩

/-! ### Claim about the table-of-contents observers -/

/-- Claim C9: setupIntersectionObserver disconnects the previously
registered observer before creating a new one, so starting from any state
in which only the globally referenced observer is connected, after two
consecutive table-of-contents rebuilds on documents with headings exactly
one observer is connected, and it is the referenced one — no stale
observer survives to mark entries active. -/
theorem toc_rebuild_single_observer (st : ObserverState) (h1 h2 : List String)
    (hinv : ObserverInv st) (hne1 : h1 ≠ []) (hne2 : h2 ≠ []) :
    (rebuildTOC h2 (rebuildTOC h1 st)).connected.length = 1
  ∧ ObserverInv (rebuildTOC h2 (rebuildTOC h1 st)) := by
  have he1 : h1.isEmpty = false := by simpa [List.isEmpty_iff] using hne1
  have he2 : h2.isEmpty = false := by simpa [List.isEmpty_iff] using hne2
  rw [rebuildTOC, if_neg (by simp [hne2]), rebuildTOC, if_neg (by simp [hne1])]
  obtain ⟨hc1, hi1⟩ := observer_setup_inv h1 st hinv he1
  obtain ⟨hc2, hi2⟩ := observer_setup_inv h2 _ hi1 he2
  exact ⟨by rw [hc2]; rfl, hi2⟩

theorem toc_rebuild_single_observer_witness :
    ObserverInv ⟨0, [], none⟩
  ∧ (["Intro"] : List String) ≠ []
  ∧ (["Details"] : List String) ≠ []
  ∧ ((rebuildTOC ["Details"] (rebuildTOC ["Intro"] ⟨0, [], none⟩)).connected.length = 1
    ∧ ObserverInv (rebuildTOC ["Details"] (rebuildTOC ["Intro"] ⟨0, [], none⟩))) :=
  ⟨fun i hi => by simp at hi, by decide, by decide,
    toc_rebuild_single_observer ⟨0, [], none⟩ ["Intro"] ["Details"]
      (fun i hi => by simp at hi) (by decide) (by decide)⟩

end MarkdownDocs
